import Mathlib

/-!
Shallow embedding of `src/raster_to_rgb.py`: a converter from multi-band
geospatial rasters to 8-bit RGB images.  Raw raster samples are modelled as
exact rationals extended with a NaN element (`RVal`), mirroring the IEEE
behaviours the numpy code relies on (NaN-propagating arithmetic, the
always-true `!=` comparison against NaN, NaN-propagating `min`/`max`
reductions).  The truncating `astype(np.uint8)` cast is modelled as
truncation toward zero followed by reduction mod 256, as the platforms
numpy runs on do; a NaN casts to 0.
-/

namespace RasterToRgb

/-- A raster sample value: either an exact numeric value or IEEE NaN. -/
inductive RVal where
  | nan : RVal
  | fin : ℚ → RVal
deriving DecidableEq, Repr

/-- `np.isnan` on a sample. -/
def RVal.isnan : RVal → Bool
  | RVal.nan => true
  | RVal.fin _ => false

/-- numpy elementwise `!=` (IEEE semantics: any comparison with NaN is unequal). -/
def npNe : RVal → RVal → Bool
  | RVal.fin a, RVal.fin b => a != b
  | _, _ => true

/-- numpy scalar `==` (IEEE semantics: NaN compares unequal to everything, itself included). -/
def npEq : RVal → RVal → Bool
  | RVal.fin a, RVal.fin b => a == b
  | _, _ => false

/-- NaN-propagating subtraction. -/
def rsub : RVal → RVal → RVal
  | RVal.fin a, RVal.fin b => RVal.fin (a - b)
  | _, _ => RVal.nan

/-- NaN-propagating division.  Division by an exact zero never occurs in the
guarded uses below (the degenerate-domain branch catches `max == min` first);
it is mapped to NaN to keep the function total. -/
def rdiv : RVal → RVal → RVal
  | RVal.fin a, RVal.fin b => if b = 0 then RVal.nan else RVal.fin (a / b)
  | _, _ => RVal.nan

/-- NaN-propagating multiplication. -/
def rmul : RVal → RVal → RVal
  | RVal.fin a, RVal.fin b => RVal.fin (a * b)
  | _, _ => RVal.nan

/-- `np.clip(x, 0, 255)`; NaN passes through unchanged. -/
def rclip : RVal → RVal
  | RVal.nan => RVal.nan
  | RVal.fin q => RVal.fin (max 0 (min 255 q))

/-- Truncation toward zero, the C float-to-integer conversion. -/
def truncZ (q : ℚ) : ℤ :=
  if q < 0 then ⌈q⌉ else ⌊q⌋

/-- `astype(np.uint8)` on a float value: truncate toward zero, wrap mod 256.
A NaN converts to 0 (the behaviour observed on the supported platforms). -/
def toUint8 : RVal → ℕ
  | RVal.nan => 0
  | RVal.fin q => (truncZ q % 256).toNat

/-- NaN-propagating binary minimum, as used by the `np.min` reduction. -/
def rmin2 : RVal → RVal → RVal
  | RVal.fin a, RVal.fin b => RVal.fin (min a b)
  | _, _ => RVal.nan

/-- NaN-propagating binary maximum, as used by the `np.max` reduction. -/
def rmax2 : RVal → RVal → RVal
  | RVal.fin a, RVal.fin b => RVal.fin (max a b)
  | _, _ => RVal.nan

/-- The per-sample validity test: lines 59-62 and 126-129 of the source.
With a no-data sentinel, `bands_data != nodata`; without one, `~np.isnan`. -/
def validAt (nodata : Option RVal) (s : RVal) : Bool :=
  match nodata with
  | some nd => npNe s nd
  | none => ! s.isnan

/-- The three selected bands in (red, green, blue) order, each flattened
row-major: the `(3, height, width)` array `band_data`. -/
structure Bands where
  r : List RVal
  g : List RVal
  b : List RVal
deriving DecidableEq, Repr

/-- The 8-bit output array of shape `(3, height, width)`. -/
structure Bands8 where
  r : List ℕ
  g : List ℕ
  b : List ℕ
deriving DecidableEq, Repr

/-- Channel accessor for the input buffer. -/
def Bands.chan (d : Bands) : Fin 3 → List RVal
  | ⟨0, _⟩ => d.r
  | ⟨1, _⟩ => d.g
  | ⟨2, _⟩ => d.b

/-- Channel accessor for the output buffer. -/
def Bands8.chan (o : Bands8) : Fin 3 → List ℕ
  | ⟨0, _⟩ => o.r
  | ⟨1, _⟩ => o.g
  | ⟨2, _⟩ => o.b

/-- `bands_data[valid_mask]`: the valid samples of all three bands jointly. -/
def validSamples (d : Bands) (nodata : Option RVal) : List RVal :=
  (d.r ++ d.g ++ d.b).filter (validAt nodata)

/-- Lines 64-71 of the source: the automatic scaling domain `(global_min,
global_max)` — the `np.min`/`np.max` reductions over `bands_data[valid_mask]`,
with the `(0, 1)` fallback when no sample is valid. -/
def globalDomain (d : Bands) (nodata : Option RVal) : RVal × RVal :=
  match validSamples d nodata with
  | [] => (RVal.fin 0, RVal.fin 1)
  | x :: xs => (xs.foldl rmin2 x, xs.foldl rmax2 x)

/-- One element of the non-degenerate scaling pipeline, lines 78-84 (and
identically lines 135-137): `(s - lo) / (hi - lo) * 255`, then
`np.where(valid_mask, ., 0)`, then `np.clip(., 0, 255).astype(np.uint8)`. -/
def scaleElem (lo hi : RVal) (nodata : Option RVal) (s : RVal) : ℕ :=
  let t := rmul (rdiv (rsub s lo) (rsub hi lo)) (RVal.fin 255)
  toUint8 (rclip (if validAt nodata s then t else RVal.fin 0))

/-- `scale_to_8bit(bands_data, nodata)`, lines 47-86 of the source. -/
def scale_to_8bit (d : Bands) (nodata : Option RVal) : Bands8 :=
  let dom := globalDomain d nodata
  if npEq dom.2 dom.1 then
    ⟨d.r.map fun _ => 0, d.g.map fun _ => 0, d.b.map fun _ => 0⟩
  else
    ⟨d.r.map (scaleElem dom.1 dom.2 nodata),
     d.g.map (scaleElem dom.1 dom.2 nodata),
     d.b.map (scaleElem dom.1 dom.2 nodata)⟩

/-- Lines 124-140 of `convert_raster_to_rgb`: with both `min_value` and
`max_value` supplied the explicit-domain scaling path runs (with its own
degenerate-domain guard `max_value == min_value`); in every other case —
both absent, or only one supplied — the automatic `scale_to_8bit` runs. -/
def convertScale (d : Bands) (nodata : Option RVal) (mn mx : Option RVal) : Bands8 :=
  match mn, mx with
  | some mnv, some mxv =>
    if npEq mxv mnv then
      ⟨d.r.map fun _ => 0, d.g.map fun _ => 0, d.b.map fun _ => 0⟩
    else
      ⟨d.r.map (scaleElem mnv mxv nodata),
       d.g.map (scaleElem mnv mxv nodata),
       d.b.map (scaleElem mnv mxv nodata)⟩
  | _, _ => scale_to_8bit d nodata

/-- Modelled from the spec: the error kinds of section 7 that the conversion
pipeline can signal.  In the source, `convert_raster_to_rgb` raises only the
band-index `ValueError` (lines 107-110); no code path of the pipeline raises
an invalid-domain error, which is exactly what claim C6 is about. -/
inductive ConvError where
  | bandIndexOutOfRange (channel : String) (index numBands : ℕ)
  | invalidDomainSpecification
deriving DecidableEq, Repr

/-- The opened input raster: band count, 1-indexed band reader, and the
optional no-data sentinel (`src.count`, `src.read`, `src.nodata`). -/
structure Source where
  numBands : ℕ
  readBand : ℕ → List RVal
  nodata : Option RVal

/-- `convert_raster_to_rgb(input_path, output_path, band_r, band_g, band_b,
min_value, max_value)`, lines 89-140 of the source, up to the production of
the scaled 8-bit buffer (the GeoTIFF write and summary printing that follow
involve no further computation on the buffer).  Band indices are validated
in (red, green, blue) order; then the three bands are read and scaled. -/
def convert_raster_to_rgb (src : Source) (band_r band_g band_b : ℕ)
    (min_value max_value : Option RVal) : Except ConvError Bands8 :=
  if band_r < 1 ∨ src.numBands < band_r then
    Except.error (ConvError.bandIndexOutOfRange ("Red") band_r src.numBands)
  else if band_g < 1 ∨ src.numBands < band_g then
    Except.error (ConvError.bandIndexOutOfRange ("Green") band_g src.numBands)
  else if band_b < 1 ∨ src.numBands < band_b then
    Except.error (ConvError.bandIndexOutOfRange ("Blue") band_b src.numBands)
  else
    Except.ok (convertScale ⟨src.readBand band_r, src.readBand band_g, src.readBand band_b⟩
      src.nodata min_value max_value)

/-- Outcome of the command-line wrapper: either an early `sys.exit(1)` taken
before `convert_raster_to_rgb` is ever invoked (so before any raster is
opened or read), or the result of running the pipeline. -/
inductive MainResult where
  | earlyExit (msg : String)
  | ran (result : Except ConvError Bands8)
deriving Repr

/-- The `main()` wrapper, lines 180-236: after argument parsing it checks
that the input exists (line 215) and that `--min`/`--max` are supplied
together (line 220), exiting before any I/O if either check fails; only then
does it call the conversion pipeline.  The interpolated file name in the
first message is elided. -/
def main (inputExists : Bool) (src : Source) (band_r band_g band_b : ℕ)
    (argMin argMax : Option RVal) : MainResult :=
  if !inputExists then
    MainResult.earlyExit ("Error: Input file not found.")
  else if argMin.isSome != argMax.isSome then
    MainResult.earlyExit ("Error: Both --min and --max must be specified together.")
  else
    MainResult.ran (convert_raster_to_rgb src band_r band_g band_b argMin argMax)

/-- A rasterio affine geotransform: `x = a*col + b*row + c`,
`y = d*col + e*row + f`. -/
structure Affine where
  a : ℚ
  b : ℚ
  c : ℚ
  d : ℚ
  e : ℚ
  f : ℚ
deriving DecidableEq, Repr

/-- Python `str.rfind`: index of the last occurrence of a character,
`-1` when absent. -/
def rfindZ (ch : Char) : List Char → ℤ
  | [] => -1
  | x :: xs =>
    let r := rfindZ ch xs
    if 0 ≤ r then r + 1 else if x = ch then 0 else -1

/-- `os.path.splitext(p)[0]` for POSIX paths: the path with its extension
removed.  The extension starts at the last `.` of the final path component,
except that leading dots of that component do not begin an extension. -/
def splitextRoot (p : List Char) : List Char :=
  let sepIdx := rfindZ '/' p
  let dotIdx := rfindZ '.' p
  if sepIdx < dotIdx then
    let stem := (p.drop (sepIdx + 1).toNat).take (dotIdx - (sepIdx + 1)).toNat
    if stem.any (fun ch => ch != '.') then p.take dotIdx.toNat else p
  else p

/-- `create_world_file(transform, output_path)`, lines 17-44: the sidecar
path (extension replaced by `.tfw`) and the six values written to it, one
per line, in the order the source writes them: `a`, `b`, `d`, `e`, `c`, `f`.
The decimal rendering of each value is not modelled. -/
def create_world_file (transform : Affine) (output_path : List Char) : List Char × List ℚ :=
  (splitextRoot output_path ++ ('.' :: 't' :: 'f' :: 'w' :: []),
   [transform.a, transform.b, transform.d, transform.e, transform.c, transform.f])

/-- The spec's GeoreferenceRecord: the six geotransform coefficients under
their section-3 names.  The correspondence with the affine fields follows
the source's own comments (lines 29-42): `a` pixel width, `b`/`d` the two
rotation terms, `e` pixel height, `c`/`f` the origin. -/
structure GeoreferenceRecord where
  pixelWidth : ℚ
  rowTerm : ℚ
  colTerm : ℚ
  pixelHeight : ℚ
  originX : ℚ
  originY : ℚ
deriving DecidableEq, Repr

/-- Projection of a geotransform onto the spec's record. -/
def GeoreferenceRecord.ofAffine (t : Affine) : GeoreferenceRecord :=
  ⟨t.a, t.b, t.d, t.e, t.c, t.f⟩

/-- The world-file emission order stated by the spec: (pixel width, row
rotation, column rotation, pixel height, origin X, origin Y). -/
def worldFileOrder (r : GeoreferenceRecord) : List ℚ :=
  [r.pixelWidth, r.rowTerm, r.colTerm, r.pixelHeight, r.originX, r.originY]

/-- Every element of the output buffer is zero. -/
def outAllZero (o : Bands8) : Prop :=
  (∀ x ∈ o.r, x = 0) ∧ (∀ x ∈ o.g, x = 0) ∧ (∀ x ∈ o.b, x = 0)

/-- The per-sample formula exactly as claim C1 words it: round to nearest,
then clip to [0, 255] — to be compared against what the code computes. -/
def claimRoundScale (lo hi s : ℚ) : ℕ :=
  (min 255 (max 0 (round ((s - lo) / (hi - lo) * 255)))).toNat

/-- The validity rule exactly as claim C7 words it: with a sentinel present a
sample is valid iff it is not bit-exactly equal to the sentinel (structural
equality on the value, so a NaN sample under a NaN sentinel is invalid);
without one, valid iff not NaN. -/
def specBitExactValid (nodata : Option RVal) (s : RVal) : Bool :=
  match nodata with
  | some nd => s != nd
  | none => ! s.isnan

/-- The spec's section-8 scenario bands: band 4 (red) valued in [0, 10000],
band 3 (green) in [0, 8000], band 2 (blue) in [0, 12000], no sentinel. -/
def scenarioBands : Bands :=
  ⟨[RVal.fin 0, RVal.fin 10000], [RVal.fin 0, RVal.fin 8000], [RVal.fin 0, RVal.fin 12000]⟩

/-- A one-band, one-pixel source used to exercise the pipeline concretely. -/
def demoSource : Source :=
  ⟨1, fun _ => [RVal.fin 5], none⟩

/-- A one-pixel buffer holding the value 15000 in every channel. -/
def sc15Bands : Bands :=
  ⟨[RVal.fin 15000], [RVal.fin 15000], [RVal.fin 15000]⟩

theorem rsub_nan_left (v : RVal) : rsub RVal.nan v = RVal.nan := by
  cases v <;> rfl

theorem rsub_nan_right (v : RVal) : rsub v RVal.nan = RVal.nan := by
  cases v <;> rfl

theorem rdiv_nan_left (v : RVal) : rdiv RVal.nan v = RVal.nan := by
  cases v <;> rfl

theorem rmul_nan_left (v : RVal) : rmul RVal.nan v = RVal.nan := by
  cases v <;> rfl

theorem toUint8_le (v : RVal) : toUint8 v ≤ 255 := by
  cases v with
  | nan => simp [toUint8]
  | fin q =>
    have h1 : 0 ≤ truncZ q % 256 := Int.emod_nonneg _ (by norm_num)
    have h2 : truncZ q % 256 < 256 := Int.emod_lt_of_pos _ (by norm_num)
    simp only [toUint8]
    omega

theorem scaleElem_le (lo hi : RVal) (nd : Option RVal) (s : RVal) :
    scaleElem lo hi nd s ≤ 255 :=
  toUint8_le _

theorem scaleElem_invalid (lo hi : RVal) (nd : Option RVal) (s : RVal)
    (hv : validAt nd s = false) : scaleElem lo hi nd s = 0 := by
  simp [scaleElem, hv, rclip, toUint8, truncZ]

theorem scaleElem_nan_sample (lo hi : RVal) (nd : Option RVal) :
    scaleElem lo hi nd RVal.nan = 0 := by
  cases hv : validAt nd RVal.nan with
  | false => exact scaleElem_invalid _ _ _ _ hv
  | true =>
    simp [scaleElem, hv, rsub_nan_left, rdiv_nan_left, rmul_nan_left, rclip, toUint8]

theorem scaleElem_nan_nan (nd : Option RVal) (s : RVal) :
    scaleElem RVal.nan RVal.nan nd s = 0 := by
  cases hv : validAt nd s with
  | false => exact scaleElem_invalid _ _ _ _ hv
  | true =>
    simp [scaleElem, hv, rsub_nan_right, rdiv_nan_left, rmul_nan_left, rclip, toUint8,
      truncZ]

theorem scaleElem_fin_eq (lo hi s : ℚ) (nd : Option RVal) (hne : lo ≠ hi)
    (hv : validAt nd (RVal.fin s) = true) :
    scaleElem (RVal.fin lo) (RVal.fin hi) nd (RVal.fin s)
      = (⌊max 0 (min 255 ((s - lo) / (hi - lo) * 255))⌋).toNat := by
  have hsub : hi - lo ≠ 0 := sub_ne_zero.mpr (Ne.symm hne)
  have hq : (0:ℚ) ≤ max 0 (min 255 ((s - lo) / (hi - lo) * 255)) := le_max_left _ _
  have hq255 : max 0 (min 255 ((s - lo) / (hi - lo) * 255)) ≤ 255 :=
    max_le (by norm_num) (min_le_left _ _)
  have hfl0 : 0 ≤ ⌊max 0 (min 255 ((s - lo) / (hi - lo) * 255))⌋ :=
    Int.floor_nonneg.mpr hq
  have hfl255 : ⌊max 0 (min 255 ((s - lo) / (hi - lo) * 255))⌋ ≤ 255 := by
    calc ⌊max 0 (min 255 ((s - lo) / (hi - lo) * 255))⌋ ≤ ⌊(255:ℚ)⌋ :=
          Int.floor_le_floor hq255
      _ = 255 := by norm_num
  simp only [scaleElem, rsub, rdiv, rmul, if_neg hsub, hv, if_pos, rclip, toUint8,
    truncZ, not_lt.mpr hq, if_neg (not_lt.mpr hq), if_false]
  rw [Int.emod_eq_of_lt hfl0 (by omega)]

theorem chan_mk8 (d : Bands) (f : RVal → ℕ) (c : Fin 3) :
    (Bands8.mk (d.r.map f) (d.g.map f) (d.b.map f)).chan c = (d.chan c).map f := by
  fin_cases c <;> rfl

theorem scale_to_8bit_chan (d : Bands) (nd : Option RVal) (c : Fin 3) :
    (scale_to_8bit d nd).chan c = (d.chan c).map (fun _ => 0)
    ∨ (scale_to_8bit d nd).chan c
        = (d.chan c).map (scaleElem (globalDomain d nd).1 (globalDomain d nd).2 nd) := by
  by_cases h : npEq (globalDomain d nd).2 (globalDomain d nd).1 = true
  · left
    simp only [scale_to_8bit, h, if_true]
    exact chan_mk8 d _ c
  · right
    simp only [scale_to_8bit, h, if_false, Bool.not_eq_true] at h ⊢
    simp only [h, Bool.false_eq_true, if_false]
    exact chan_mk8 d _ c

theorem convertScale_chan (d : Bands) (nd : Option RVal) (mn mx : Option RVal) (c : Fin 3) :
    (convertScale d nd mn mx).chan c = (d.chan c).map (fun _ => 0)
    ∨ ∃ lo hi, (convertScale d nd mn mx).chan c = (d.chan c).map (scaleElem lo hi nd) := by
  cases mn with
  | none =>
    rcases scale_to_8bit_chan d nd c with h | h
    · exact Or.inl h
    · exact Or.inr ⟨_, _, h⟩
  | some mnv =>
    cases mx with
    | none =>
      rcases scale_to_8bit_chan d nd c with h | h
      · exact Or.inl h
      · exact Or.inr ⟨_, _, h⟩
    | some mxv =>
      by_cases h : npEq mxv mnv = true
      · left
        simp only [convertScale, h, if_true]
        exact chan_mk8 d _ c
      · right
        refine ⟨mnv, mxv, ?_⟩
        simp only [convertScale, h, Bool.not_eq_true] at h ⊢
        simp only [h, Bool.false_eq_true, if_false]
        exact chan_mk8 d _ c

theorem foldl_rmin2_fin (l : List RVal) (h : ∀ v ∈ l, v ≠ RVal.nan) :
    ∀ a : ℚ, ∃ m : ℚ, l.foldl rmin2 (RVal.fin a) = RVal.fin m ∧ m ≤ a ∧
      (∀ q : ℚ, RVal.fin q ∈ l → m ≤ q) ∧ (m = a ∨ RVal.fin m ∈ l) := by
  induction l with
  | nil =>
    intro a
    exact ⟨a, rfl, le_refl a, by simp, Or.inl rfl⟩
  | cons x xs ih =>
    intro a
    have hx : x ≠ RVal.nan := h x (List.mem_cons_self x xs)
    obtain ⟨b, rfl⟩ : ∃ b, x = RVal.fin b := by
      cases x with
      | nan => exact absurd rfl hx
      | fin b => exact ⟨b, rfl⟩
    have hxs : ∀ v ∈ xs, v ≠ RVal.nan := fun v hv => h v (List.mem_cons_of_mem _ hv)
    obtain ⟨m, hm, hle, hbound, hatt⟩ := ih hxs (min a b)
    refine ⟨m, ?_, le_trans hle (min_le_left a b), ?_, ?_⟩
    · rw [List.foldl_cons]
      exact hm
    · intro q hq
      rcases List.mem_cons.mp hq with heq | hmem
      · have hqb : q = b := by
          injection heq
        exact hqb ▸ le_trans hle (min_le_right a b)
      · exact hbound q hmem
    · rcases hatt with h1 | h2
      · rcases le_total a b with hab | hba
        · exact Or.inl (h1.trans (min_eq_left hab))
        · refine Or.inr ?_
          have : m = b := h1.trans (min_eq_right hba)
          rw [this]
          exact List.mem_cons_self _ _
      · exact Or.inr (List.mem_cons_of_mem _ h2)

theorem foldl_rmax2_fin (l : List RVal) (h : ∀ v ∈ l, v ≠ RVal.nan) :
    ∀ a : ℚ, ∃ m : ℚ, l.foldl rmax2 (RVal.fin a) = RVal.fin m ∧ a ≤ m ∧
      (∀ q : ℚ, RVal.fin q ∈ l → q ≤ m) ∧ (m = a ∨ RVal.fin m ∈ l) := by
  induction l with
  | nil =>
    intro a
    exact ⟨a, rfl, le_refl a, by simp, Or.inl rfl⟩
  | cons x xs ih =>
    intro a
    have hx : x ≠ RVal.nan := h x (List.mem_cons_self x xs)
    obtain ⟨b, rfl⟩ : ∃ b, x = RVal.fin b := by
      cases x with
      | nan => exact absurd rfl hx
      | fin b => exact ⟨b, rfl⟩
    have hxs : ∀ v ∈ xs, v ≠ RVal.nan := fun v hv => h v (List.mem_cons_of_mem _ hv)
    obtain ⟨m, hm, hle, hbound, hatt⟩ := ih hxs (max a b)
    refine ⟨m, ?_, le_trans (le_max_left a b) hle, ?_, ?_⟩
    · rw [List.foldl_cons]
      exact hm
    · intro q hq
      rcases List.mem_cons.mp hq with heq | hmem
      · have hqb : q = b := by
          injection heq
        exact hqb ▸ le_trans (le_max_right a b) hle
      · exact hbound q hmem
    · rcases hatt with h1 | h2
      · rcases le_total b a with hab | hba
        · exact Or.inl (h1.trans (max_eq_left hab))
        · refine Or.inr ?_
          have : m = b := h1.trans (max_eq_right hba)
          rw [this]
          exact List.mem_cons_self _ _
      · exact Or.inr (List.mem_cons_of_mem _ h2)

theorem globalDomain_minmax (d : Bands) (nd : Option RVal)
    (hne : validSamples d nd ≠ [])
    (hnan : ∀ v ∈ validSamples d nd, v ≠ RVal.nan) :
    ∃ lo hi : ℚ, globalDomain d nd = (RVal.fin lo, RVal.fin hi)
      ∧ RVal.fin lo ∈ validSamples d nd ∧ RVal.fin hi ∈ validSamples d nd
      ∧ ∀ q : ℚ, RVal.fin q ∈ validSamples d nd → lo ≤ q ∧ q ≤ hi := by
  cases hvs : validSamples d nd with
  | nil => exact absurd hvs hne
  | cons x xs =>
    rw [hvs] at hnan
    have hx : x ≠ RVal.nan := hnan x (List.mem_cons_self x xs)
    obtain ⟨b, rfl⟩ : ∃ b, x = RVal.fin b := by
      cases x with
      | nan => exact absurd rfl hx
      | fin b => exact ⟨b, rfl⟩
    have hxs : ∀ v ∈ xs, v ≠ RVal.nan := fun v hv => hnan v (List.mem_cons_of_mem _ hv)
    obtain ⟨lo, hlo, hlo_le, hlo_bound, hlo_att⟩ := foldl_rmin2_fin xs hxs b
    obtain ⟨hi, hhi, hhi_le, hhi_bound, hhi_att⟩ := foldl_rmax2_fin xs hxs b
    refine ⟨lo, hi, ?_, ?_, ?_, ?_⟩
    · simp only [globalDomain, hvs, hlo, hhi]
    · rcases hlo_att with h1 | h2
      · rw [h1]
        exact List.mem_cons_self _ _
      · exact List.mem_cons_of_mem _ h2
    · rcases hhi_att with h1 | h2
      · rw [h1]
        exact List.mem_cons_self _ _
      · exact List.mem_cons_of_mem _ h2
    · intro q hq
      rcases List.mem_cons.mp hq with heq | hmem
      · have hqb : q = b := by
          injection heq
        exact hqb ▸ ⟨hlo_le, hhi_le⟩
      · exact ⟨hlo_bound q hmem, hhi_bound q hmem⟩

theorem globalDomain_empty (d : Bands) (nd : Option RVal)
    (h : validSamples d nd = []) : globalDomain d nd = (RVal.fin 0, RVal.fin 1) := by
  simp only [globalDomain, h]

theorem chan_subset (d : Bands) (c : Fin 3) :
    ∀ x ∈ d.chan c, x ∈ d.r ++ d.g ++ d.b := by
  fin_cases c <;> intro x hx <;> simp [Bands.chan] at hx ⊢ <;> tauto

theorem outAllZero_maps_mem (d : Bands) (f : RVal → ℕ)
    (hf : ∀ s ∈ d.r ++ d.g ++ d.b, f s = 0) :
    outAllZero ⟨d.r.map f, d.g.map f, d.b.map f⟩ := by
  refine ⟨?_, ?_, ?_⟩ <;> intro x hx
  · rcases List.mem_map.mp hx with ⟨s, hs, rfl⟩
    exact hf s (by simp [hs])
  · rcases List.mem_map.mp hx with ⟨s, hs, rfl⟩
    exact hf s (by simp [hs])
  · rcases List.mem_map.mp hx with ⟨s, hs, rfl⟩
    exact hf s (by simp [hs])

theorem scaleElem_same (v : RVal) (nd : Option RVal) (s : RVal) :
    scaleElem v v nd s = 0 := by
  cases v with
  | nan => exact scaleElem_nan_nan nd s
  | fin q =>
    cases hv : validAt nd s with
    | false => exact scaleElem_invalid _ _ _ _ hv
    | true =>
      cases s with
      | nan => exact scaleElem_nan_sample _ _ _
      | fin sv =>
        simp [scaleElem, rsub, rdiv, rmul, rclip, toUint8, truncZ, hv, sub_self]

theorem scale_to_8bit_eq_maps (d : Bands) (nd : Option RVal) (lo hi : ℚ)
    (hd : globalDomain d nd = (RVal.fin lo, RVal.fin hi)) (hne : lo ≠ hi) :
    scale_to_8bit d nd
      = ⟨d.r.map (scaleElem (RVal.fin lo) (RVal.fin hi) nd),
         d.g.map (scaleElem (RVal.fin lo) (RVal.fin hi) nd),
         d.b.map (scaleElem (RVal.fin lo) (RVal.fin hi) nd)⟩ := by
  have hb : npEq (RVal.fin hi) (RVal.fin lo) = false := by
    simp [npEq, beq_eq_false_iff_ne]
    exact Ne.symm hne
  simp only [scale_to_8bit, hd, hb, Bool.false_eq_true, if_false]

theorem convertScale_explicit_maps (d : Bands) (nd : Option RVal) (lo hi : ℚ)
    (hne : lo ≠ hi) :
    convertScale d nd (some (RVal.fin lo)) (some (RVal.fin hi))
      = ⟨d.r.map (scaleElem (RVal.fin lo) (RVal.fin hi) nd),
         d.g.map (scaleElem (RVal.fin lo) (RVal.fin hi) nd),
         d.b.map (scaleElem (RVal.fin lo) (RVal.fin hi) nd)⟩ := by
  have hb : npEq (RVal.fin hi) (RVal.fin lo) = false := by
    simp [npEq, beq_eq_false_iff_ne]
    exact Ne.symm hne
  simp only [convertScale, hb, Bool.false_eq_true, if_false]

/-- C3: for every sample buffer and validity mask, if the scaling domain
satisfies low == high — whether computed automatically or supplied
explicitly — then every element of the resulting output buffer is 0. -/
theorem degenerate_domain_all_zero :
    (∀ (d : Bands) (nd : Option RVal),
       (globalDomain d nd).1 = (globalDomain d nd).2 → outAllZero (scale_to_8bit d nd))
    ∧ ∀ (d : Bands) (nd : Option RVal) (v : RVal),
        outAllZero (convertScale d nd (some v) (some v)) := by
  constructor
  · intro d nd h
    by_cases hb : npEq (globalDomain d nd).2 (globalDomain d nd).1 = true
    · simp only [scale_to_8bit, hb, if_true]
      exact outAllZero_maps_mem d _ (fun s _ => rfl)
    · simp only [scale_to_8bit, Bool.not_eq_true] at hb ⊢
      simp only [hb, Bool.false_eq_true, if_false]
      refine outAllZero_maps_mem d _ (fun s _ => ?_)
      rw [h]
      exact scaleElem_same _ _ _
  · intro d nd v
    cases v with
    | fin q =>
      have hb : npEq (RVal.fin q) (RVal.fin q) = true := by simp [npEq]
      simp only [convertScale, hb, if_true]
      exact outAllZero_maps_mem d _ (fun s _ => rfl)
    | nan =>
      have hb : npEq RVal.nan RVal.nan = false := rfl
      simp only [convertScale, hb, Bool.false_eq_true, if_false]
      exact outAllZero_maps_mem d _ (fun s _ => scaleElem_nan_nan nd s)

/-- C3 witness: a buffer whose valid samples are all 5 yields the degenerate
auto domain (5, 5), and the output is entirely zero. -/
theorem degenerate_domain_all_zero_witness :
    outAllZero (scale_to_8bit ⟨[RVal.fin 5], [RVal.fin 5], [RVal.fin 5]⟩ none) :=
  degenerate_domain_all_zero.1 ⟨[RVal.fin 5], [RVal.fin 5], [RVal.fin 5]⟩ none (by decide)

/-- C4: at every position where the validity mask is false the output element
is exactly 0, for every domain choice (explicit or automatic); and a sample
equal to the no-data sentinel produces 0 regardless of the domain (even for
a NaN sentinel, where the sample is not mask-excluded but the NaN arithmetic
still casts to 0). -/
theorem masked_positions_zero :
    (∀ (d : Bands) (nd mn mx : Option RVal) (c : Fin 3) (i : ℕ) (s : RVal),
       (d.chan c).get? i = some s → validAt nd s = false →
       ((convertScale d nd mn mx).chan c).get? i = some 0)
    ∧ ∀ (d : Bands) (ndv : RVal) (mn mx : Option RVal) (c : Fin 3) (i : ℕ),
        (d.chan c).get? i = some ndv →
        ((convertScale d (some ndv) mn mx).chan c).get? i = some 0 := by
  have key : ∀ (d : Bands) (nd mn mx : Option RVal) (c : Fin 3) (i : ℕ) (s : RVal),
      (d.chan c).get? i = some s → (∀ lo hi, scaleElem lo hi nd s = 0) →
      ((convertScale d nd mn mx).chan c).get? i = some 0 := by
    intro d nd mn mx c i s hs hz
    rcases convertScale_chan d nd mn mx c with hc | ⟨lo, hi, hc⟩
    · rw [hc, List.get?_map, hs]
      rfl
    · rw [hc, List.get?_map, hs]
      simp [hz lo hi]
  constructor
  · intro d nd mn mx c i s hs hv
    exact key d nd mn mx c i s hs (fun lo hi => scaleElem_invalid lo hi nd s hv)
  · intro d ndv mn mx c i hs
    cases ndv with
    | nan => exact key d _ mn mx c i _ hs (fun lo hi => scaleElem_nan_sample lo hi _)
    | fin q =>
      have hv : validAt (some (RVal.fin q)) (RVal.fin q) = false := by
        simp [validAt, npNe]
      exact key d _ mn mx c i _ hs (fun lo hi => scaleElem_invalid lo hi _ _ hv)

/-- C4 witness: with sentinel 7, the masked-out first red sample comes out 0
under an explicit domain. -/
theorem masked_positions_zero_witness :
    ((convertScale ⟨[RVal.fin 7], [RVal.fin 9], [RVal.fin 9]⟩ (some (RVal.fin 7))
        (some (RVal.fin 0)) (some (RVal.fin 10))).chan 0).get? 0 = some 0 :=
  masked_positions_zero.1 ⟨[RVal.fin 7], [RVal.fin 9], [RVal.fin 9]⟩ (some (RVal.fin 7))
    (some (RVal.fin 0)) (some (RVal.fin 10)) 0 0 (RVal.fin 7) (by decide) (by decide)

/-- C5: with an all-false mask (every sample no-data), automatic scaling does
not fail: the domain falls back to (0, 1) and the output is all-zero. -/
theorem all_invalid_fallback (d : Bands) (nd : Option RVal)
    (h : validSamples d nd = []) :
    globalDomain d nd = (RVal.fin 0, RVal.fin 1) ∧ outAllZero (scale_to_8bit d nd) := by
  have hdom := globalDomain_empty d nd h
  refine ⟨hdom, ?_⟩
  have hall : ∀ v ∈ d.r ++ d.g ++ d.b, validAt nd v = false := by
    intro v hv
    have hf := List.filter_eq_nil.mp h
    simpa using hf v hv
  rw [scale_to_8bit_eq_maps d nd 0 1 hdom (by norm_num)]
  exact outAllZero_maps_mem d _ (fun s hs => scaleElem_invalid _ _ _ _ (hall s hs))

/-- C5 witness: a buffer whose every sample equals the sentinel 7 triggers
the (0, 1) fallback and an all-zero output. -/
theorem all_invalid_fallback_witness :
    globalDomain ⟨[RVal.fin 7], [RVal.fin 7], [RVal.fin 7]⟩ (some (RVal.fin 7))
      = (RVal.fin 0, RVal.fin 1)
    ∧ outAllZero (scale_to_8bit ⟨[RVal.fin 7], [RVal.fin 7], [RVal.fin 7]⟩
        (some (RVal.fin 7))) :=
  all_invalid_fallback ⟨[RVal.fin 7], [RVal.fin 7], [RVal.fin 7]⟩ (some (RVal.fin 7))
    (by decide)

/-- C8: every output element lies in [0, 255] (outputs are naturals, so the
upper bound is the content); and the explicit domain (0, 10000) maps the
out-of-range sample 15000 to exactly 255 — a saturating clip, not a
wraparound and not an error. -/
theorem output_in_range :
    (∀ (d : Bands) (nd mn mx : Option RVal) (c : Fin 3) (v : ℕ),
       v ∈ (convertScale d nd mn mx).chan c → v ≤ 255)
    ∧ (convertScale sc15Bands none (some (RVal.fin 0)) (some (RVal.fin 10000))).r.get? 0
        = some 255 := by
  constructor
  · intro d nd mn mx c v hv
    rcases convertScale_chan d nd mn mx c with hc | ⟨lo, hi, hc⟩
    · rw [hc] at hv
      rcases List.mem_map.mp hv with ⟨s, _, rfl⟩
      norm_num
    · rw [hc] at hv
      rcases List.mem_map.mp hv with ⟨s, _, rfl⟩
      exact scaleElem_le _ _ _ _
  · rw [show convertScale sc15Bands none (some (RVal.fin 0)) (some (RVal.fin 10000))
        = _ from convertScale_explicit_maps sc15Bands none 0 10000 (by norm_num)]
    show some (scaleElem (RVal.fin 0) (RVal.fin 10000) none (RVal.fin 15000)) = some 255
    rw [scaleElem_fin_eq 0 10000 15000 none (by norm_num) (by decide)]
    norm_num
    rfl

/-- C8 witness: the range bound applied to the concrete 255 produced by the
clipped scenario. -/
theorem output_in_range_witness : (255 : ℕ) ≤ 255 :=
  output_in_range.1 sc15Bands none (some (RVal.fin 0)) (some (RVal.fin 10000)) 0 255
    (List.get?_mem output_in_range.2)

/-- C2: with no explicit domain and at least one valid sample, the automatic
domain is the (min, max) of the valid samples of all three bands jointly —
both bounds are attained by valid samples and bound every valid sample, over
the concatenation of the three bands.  For the spec's scenario bands (valid
ranges [0,10000], [0,8000], [0,12000]) the auto domain is (0, 12000), the
sample 12000 maps to 255 and the sample 0 maps to 0. -/
theorem auto_domain_joint_minmax :
    (∀ (d : Bands) (nd : Option RVal),
       validSamples d nd ≠ [] → (∀ v ∈ validSamples d nd, v ≠ RVal.nan) →
       ∃ lo hi : ℚ, globalDomain d nd = (RVal.fin lo, RVal.fin hi)
         ∧ RVal.fin lo ∈ validSamples d nd ∧ RVal.fin hi ∈ validSamples d nd
         ∧ ∀ q : ℚ, RVal.fin q ∈ validSamples d nd → lo ≤ q ∧ q ≤ hi)
    ∧ globalDomain scenarioBands none = (RVal.fin 0, RVal.fin 12000)
    ∧ (scale_to_8bit scenarioBands none).b.get? 1 = some 255
    ∧ (scale_to_8bit scenarioBands none).r.get? 0 = some 0 := by
  have hdom : globalDomain scenarioBands none = (RVal.fin 0, RVal.fin 12000) := by decide
  have hmaps := scale_to_8bit_eq_maps scenarioBands none 0 12000 hdom (by norm_num)
  refine ⟨globalDomain_minmax, hdom, ?_, ?_⟩
  · rw [hmaps]
    show some (scaleElem (RVal.fin 0) (RVal.fin 12000) none (RVal.fin 12000)) = some 255
    rw [scaleElem_fin_eq 0 12000 12000 none (by norm_num) (by decide)]
    norm_num
    rfl
  · rw [hmaps]
    show some (scaleElem (RVal.fin 0) (RVal.fin 12000) none (RVal.fin 0)) = some 0
    rw [scaleElem_fin_eq 0 12000 0 none (by norm_num) (by decide)]
    norm_num

/-- C2 witness: the joint min/max characterization instantiated at the
scenario bands. -/
theorem auto_domain_joint_minmax_witness :
    ∃ lo hi : ℚ, globalDomain scenarioBands none = (RVal.fin lo, RVal.fin hi)
      ∧ RVal.fin lo ∈ validSamples scenarioBands none
      ∧ RVal.fin hi ∈ validSamples scenarioBands none
      ∧ ∀ q : ℚ, RVal.fin q ∈ validSamples scenarioBands none → lo ≤ q ∧ q ≤ hi :=
  auto_domain_joint_minmax.1 scenarioBands none (by decide) (by decide)

/-- C1 (amended): at a mask-true position with numeric sample `s`, and a
scaling domain `(lo, hi)` with `lo ≠ hi` — explicit (first conjunct) or
automatically computed (second conjunct) — the output element equals
`(s - lo) / (hi - lo) * 255` clipped to [0, 255] and then truncated toward
zero by the uint8 cast (i.e. its floor), not rounded to nearest as the claim
states. -/
theorem scaled_output_truncated (d : Bands) (nd : Option RVal) (lo hi s : ℚ)
    (c : Fin 3) (i : ℕ) (hne : lo ≠ hi)
    (hs : (d.chan c).get? i = some (RVal.fin s))
    (hv : validAt nd (RVal.fin s) = true) :
    ((convertScale d nd (some (RVal.fin lo)) (some (RVal.fin hi))).chan c).get? i
      = some (⌊max 0 (min 255 ((s - lo) / (hi - lo) * 255))⌋.toNat)
    ∧ (globalDomain d nd = (RVal.fin lo, RVal.fin hi) →
       ((scale_to_8bit d nd).chan c).get? i
         = some (⌊max 0 (min 255 ((s - lo) / (hi - lo) * 255))⌋.toNat)) := by
  constructor
  · rw [convertScale_explicit_maps d nd lo hi hne, chan_mk8, List.get?_map, hs]
    simp [scaleElem_fin_eq lo hi s nd hne hv]
  · intro hd
    rw [scale_to_8bit_eq_maps d nd lo hi hd hne, chan_mk8, List.get?_map, hs]
    simp [scaleElem_fin_eq lo hi s nd hne hv]

/-- C1 witness: the explicit domain (0, 2) on the sample 1 gives
floor(clip(127.5)) = 127. -/
theorem scaled_output_truncated_witness :
    ((convertScale ⟨[RVal.fin 1], [RVal.fin 1], [RVal.fin 1]⟩ none (some (RVal.fin 0))
        (some (RVal.fin 2))).chan 0).get? 0 = some 127 := by
  have h := (scaled_output_truncated ⟨[RVal.fin 1], [RVal.fin 1], [RVal.fin 1]⟩ none 0 2 1 0 0
    (by norm_num) (by decide) (by decide)).1
  rw [h]
  norm_num
  rfl

/-- C1 counterexample: at sample 1 with explicit domain (0, 2) the scaled
intermediate is 127.5; the code truncates to 127, while the claim's formula
clip(round(127.5), 0, 255) yields 128. -/
theorem claim_round_counterexample :
    ((convertScale ⟨[RVal.fin 1], [RVal.fin 1], [RVal.fin 1]⟩ none (some (RVal.fin 0))
        (some (RVal.fin 2))).r).get? 0 = some 127
    ∧ claimRoundScale 0 2 1 = 128
    ∧ ((convertScale ⟨[RVal.fin 1], [RVal.fin 1], [RVal.fin 1]⟩ none (some (RVal.fin 0))
        (some (RVal.fin 2))).r).get? 0 ≠ some (claimRoundScale 0 2 1) := by
  have h1 : ((convertScale ⟨[RVal.fin 1], [RVal.fin 1], [RVal.fin 1]⟩ none (some (RVal.fin 0))
      (some (RVal.fin 2))).r).get? 0 = some 127 := by
    rw [convertScale_explicit_maps ⟨[RVal.fin 1], [RVal.fin 1], [RVal.fin 1]⟩ none 0 2
      (by norm_num)]
    show some (scaleElem (RVal.fin 0) (RVal.fin 2) none (RVal.fin 1)) = some 127
    rw [scaleElem_fin_eq 0 2 1 none (by norm_num) (by decide)]
    norm_num
    rfl
  have h2 : claimRoundScale 0 2 1 = 128 := by
    simp only [claimRoundScale]
    norm_num [round_eq]
    rfl
  refine ⟨h1, h2, ?_⟩
  rw [h1, h2]
  simp

/-- C9 (amended): for a fixed scaling domain with lo < hi, the scaling
function is non-decreasing in the sample value at mask-true positions.  (For
a reversed explicit domain, lo > hi, it is decreasing — see the
counterexample.) -/
theorem scaling_monotone (lo hi s1 s2 : ℚ) (nd : Option RVal)
    (hlt : lo < hi) (h12 : s1 ≤ s2)
    (hv1 : validAt nd (RVal.fin s1) = true) (hv2 : validAt nd (RVal.fin s2) = true) :
    scaleElem (RVal.fin lo) (RVal.fin hi) nd (RVal.fin s1)
      ≤ scaleElem (RVal.fin lo) (RVal.fin hi) nd (RVal.fin s2) := by
  rw [scaleElem_fin_eq lo hi s1 nd hlt.ne hv1, scaleElem_fin_eq lo hi s2 nd hlt.ne hv2]
  have hpos : 0 < hi - lo := sub_pos.mpr hlt
  have hdiv : (s1 - lo) / (hi - lo) * 255 ≤ (s2 - lo) / (hi - lo) * 255 := by
    have h1 : (s1 - lo) / (hi - lo) ≤ (s2 - lo) / (hi - lo) :=
      (div_le_div_right hpos).mpr (sub_le_sub_right h12 lo)
    exact mul_le_mul_of_nonneg_right h1 (by norm_num)
  exact Int.toNat_le_toNat (Int.floor_le_floor
    (max_le_max (le_refl 0) (min_le_min (le_refl 255) hdiv)))

/-- C9 witness: monotone instance on the domain (0, 2) at samples 1 ≤ 2. -/
theorem scaling_monotone_witness :
    scaleElem (RVal.fin 0) (RVal.fin 2) none (RVal.fin 1)
      ≤ scaleElem (RVal.fin 0) (RVal.fin 2) none (RVal.fin 2) :=
  scaling_monotone 0 2 1 2 none (by norm_num) (by norm_num) (by decide) (by decide)

/-- C9 counterexample: explicit domains are not validated, so the reversed
domain (1, 0) is a legal fixed domain, and on it scaling is decreasing:
sample 0 maps to 255 but sample 1 maps to 0. -/
theorem monotone_counterexample :
    (0:ℚ) ≤ 1
    ∧ scaleElem (RVal.fin 1) (RVal.fin 0) none (RVal.fin 0) = 255
    ∧ scaleElem (RVal.fin 1) (RVal.fin 0) none (RVal.fin 1) = 0
    ∧ ¬ (scaleElem (RVal.fin 1) (RVal.fin 0) none (RVal.fin 0)
          ≤ scaleElem (RVal.fin 1) (RVal.fin 0) none (RVal.fin 1)) := by
  have h1 : scaleElem (RVal.fin 1) (RVal.fin 0) none (RVal.fin 0) = 255 := by
    rw [scaleElem_fin_eq 1 0 0 none (by norm_num) (by decide)]
    norm_num
    rfl
  have h2 : scaleElem (RVal.fin 1) (RVal.fin 0) none (RVal.fin 1) = 0 := by
    rw [scaleElem_fin_eq 1 0 1 none (by norm_num) (by decide)]
    norm_num
  refine ⟨by norm_num, h1, h2, ?_⟩
  rw [h1, h2]
  omega

/-- C6 counterexample: invoked directly with only `min_value` supplied, the
conversion pipeline does not fail with any error — it silently falls back to
automatic scaling and returns a result (here the degenerate auto domain
(5, 5) yields the all-zero buffer). -/
theorem pipeline_accepts_partial_domain :
    convert_raster_to_rgb demoSource 1 1 1 (some (RVal.fin 0)) none
      = Except.ok ⟨[0], [0], [0]⟩
    ∧ ∀ e : ConvError, convert_raster_to_rgb demoSource 1 1 1 (some (RVal.fin 0)) none
        ≠ Except.error e := by
  have h : convert_raster_to_rgb demoSource 1 1 1 (some (RVal.fin 0)) none
      = Except.ok ⟨[0], [0], [0]⟩ := by rfl
  exact ⟨h, fun e => by rw [h]; simp⟩

/-- C6 (amended): the partial-domain rejection lives in the CLI wrapper, not
the pipeline: with the input file present and exactly one of the two bounds
supplied, `main` exits with the error message before `convert_raster_to_rgb`
(and hence any raster I/O) runs; the pipeline itself, called with a partial
domain, behaves exactly as with no domain at all (automatic scaling). -/
theorem partial_domain_cli_guard (src : Source) (br bg bb : ℕ) (mn mx : Option RVal)
    (h : mn.isSome ≠ mx.isSome) :
    main true src br bg bb mn mx
      = MainResult.earlyExit ("Error: Both --min and --max must be specified together.")
    ∧ convert_raster_to_rgb src br bg bb mn mx
      = convert_raster_to_rgb src br bg bb none none := by
  have hb : (mn.isSome != mx.isSome) = true := by
    cases mn <;> cases mx <;> simp_all
  have hcs : ∀ (d : Bands) (nd : Option RVal),
      convertScale d nd mn mx = convertScale d nd none none := by
    intro d nd
    cases mn <;> cases mx <;> simp_all [convertScale]
  constructor
  · simp [main, hb]
  · simp only [convert_raster_to_rgb, hcs]

/-- C6 witness: the CLI guard at the concrete partial invocation. -/
theorem partial_domain_cli_guard_witness :
    main true demoSource 1 1 1 (some (RVal.fin 0)) none
      = MainResult.earlyExit ("Error: Both --min and --max must be specified together.")
    ∧ convert_raster_to_rgb demoSource 1 1 1 (some (RVal.fin 0)) none
      = convert_raster_to_rgb demoSource 1 1 1 none none :=
  partial_domain_cli_guard demoSource 1 1 1 (some (RVal.fin 0)) none (by simp)

/-- C7 counterexample: with a NaN sentinel and a NaN sample — bit-exactly
equal values — the code's `!=` comparison is IEEE-true, so the sample is
marked valid, while the claim's bit-exact rule marks it invalid. -/
theorem bitexact_validity_counterexample :
    validAt (some RVal.nan) RVal.nan = true
    ∧ specBitExactValid (some RVal.nan) RVal.nan = false := by
  exact ⟨rfl, by decide⟩

/-- C7 (amended): with a sentinel present, a sample is valid iff the IEEE
`!=` comparison against the sentinel holds — numerically unequal for two
numeric values, and always true when either side is NaN (so a NaN sample is
valid even under a NaN sentinel); with no sentinel, a sample is valid iff it
is not NaN (numeric samples, in particular all integer samples, are always
valid).  The function is total: the cases below cover every input. -/
theorem validity_rule :
    (∀ a b : ℚ, validAt (some (RVal.fin a)) (RVal.fin b) = true ↔ b ≠ a)
    ∧ (∀ nd : RVal, validAt (some nd) RVal.nan = true)
    ∧ (∀ s : RVal, validAt (some RVal.nan) s = true)
    ∧ (∀ q : ℚ, validAt none (RVal.fin q) = true)
    ∧ validAt none RVal.nan = false := by
  refine ⟨?_, ?_, ?_, ?_, rfl⟩
  · intro a b
    simp [validAt, npNe]
  · intro nd
    cases nd <;> rfl
  · intro s
    cases s <;> rfl
  · intro q
    rfl

theorem rfindZ_not_mem (ch : Char) (l : List Char) (h : ch ∉ l) : rfindZ ch l = -1 := by
  induction l with
  | nil => rfl
  | cons x xs ih =>
    have hx : ¬ x = ch := fun hxx => h (hxx ▸ List.mem_cons_self x xs)
    have hxs : ch ∉ xs := fun hm => h (List.mem_cons_of_mem _ hm)
    simp only [rfindZ, ih hxs]
    norm_num [hx]

theorem rfindZ_nonneg_of_mem (ch : Char) (l : List Char) (h : ch ∈ l) :
    0 ≤ rfindZ ch l := by
  induction l with
  | nil => simp at h
  | cons x xs ih =>
    simp only [rfindZ]
    by_cases hxs : ch ∈ xs
    · rw [if_pos (ih hxs)]
      have := ih hxs
      omega
    · have hx : x = ch := by
        rcases List.mem_cons.mp h with h1 | h2
        · exact h1.symm
        · exact absurd h2 hxs
      by_cases hr : 0 ≤ rfindZ ch xs
      · rw [if_pos hr]
        omega
      · rw [if_neg hr, if_pos hx]

theorem rfindZ_append_not_mem (ch : Char) (l1 l2 : List Char) (h : ch ∉ l2) :
    rfindZ ch (l1 ++ l2) = rfindZ ch l1 := by
  induction l1 with
  | nil => simpa using rfindZ_not_mem ch l2 h
  | cons x xs ih =>
    simp only [List.cons_append, rfindZ, List.append_eq, ih]

theorem rfindZ_append_mem (ch : Char) (l1 l2 : List Char) (h : ch ∈ l2) :
    rfindZ ch (l1 ++ l2) = l1.length + rfindZ ch l2 := by
  induction l1 with
  | nil => simp
  | cons x xs ih =>
    have h0 : 0 ≤ rfindZ ch l2 := rfindZ_nonneg_of_mem ch l2 h
    simp only [List.cons_append, rfindZ, List.append_eq, ih]
    rw [if_pos (by omega : (0:ℤ) ≤ (xs.length : ℤ) + rfindZ ch l2)]
    simp only [List.length_cons]
    push_cast
    ring

theorem splitextRoot_append_ext (stem ext : List Char) (hne : stem ≠ [])
    (hds : '.' ∉ stem) (hss : '/' ∉ stem) (hde : '.' ∉ ext) (hse : '/' ∉ ext) :
    splitextRoot (stem ++ '.' :: ext) = stem := by
  have hdot : rfindZ '.' (stem ++ '.' :: ext) = stem.length := by
    have h1 : rfindZ '.' ('.' :: ext) = 0 := by
      simp only [rfindZ, rfindZ_not_mem '.' ext hde]
      norm_num
    rw [rfindZ_append_mem '.' stem ('.' :: ext) (List.mem_cons_self _ _), h1, add_zero]
  have hsep : rfindZ '/' (stem ++ '.' :: ext) = -1 := by
    have h2 : '/' ∉ '.' :: ext := by
      intro hm
      rcases List.mem_cons.mp hm with h3 | h3
      · exact absurd h3 (by decide)
      · exact hse h3
    rw [rfindZ_append_not_mem '/' _ _ h2]
    exact rfindZ_not_mem '/' stem hss
  have htake : (stem ++ '.' :: ext).take stem.length = stem := List.take_left _ _
  simp only [splitextRoot, hdot, hsep]
  rw [if_pos (by omega : (-1:ℤ) < (stem.length : ℤ))]
  have hidx : ((-1:ℤ) + 1).toNat = 0 := by norm_num
  have hlen : ((stem.length : ℤ) - (-1 + 1)).toNat = stem.length := by omega
  rw [hidx, hlen]
  simp only [List.drop_zero, htake]
  have hany : stem.any (fun ch => ch != '.') = true := by
    cases stem with
    | nil => exact absurd rfl hne
    | cons y ys =>
      have hy : y ≠ '.' := fun hy => hds (hy ▸ List.mem_cons_self y ys)
      simp [List.any_cons, hy]
  rw [if_pos hany]
  have h3 : ((stem.length : ℤ)).toNat = stem.length := by omega
  rw [h3, htake]

/-- C10: for every geotransform and output path, the world-file sidecar is
the output path with its extension replaced by `.tfw`, and its content is
exactly six values in the spec's order (pixel width, row rotation, column
rotation, pixel height, origin X, origin Y); the extension-replacement
behaviour of the path derivation is proved for well-formed `stem.ext`
paths. -/
theorem world_file_spec :
    (∀ (t : Affine) (p : List Char),
       create_world_file t p
         = (splitextRoot p ++ ('.' :: 't' :: 'f' :: 'w' :: []),
            worldFileOrder (GeoreferenceRecord.ofAffine t)))
    ∧ (∀ (t : Affine) (p : List Char), (create_world_file t p).2.length = 6)
    ∧ ∀ (stem ext : List Char), stem ≠ [] → '.' ∉ stem → '/' ∉ stem →
        '.' ∉ ext → '/' ∉ ext → splitextRoot (stem ++ '.' :: ext) = stem :=
  ⟨fun _ _ => rfl, fun _ _ => rfl, splitextRoot_append_ext⟩

/-- C10 witness: the path `out.tif` has its extension replaced, leaving the
stem `out`. -/
theorem world_file_spec_witness :
    splitextRoot (('o' :: 'u' :: 't' :: []) ++ '.' :: ('t' :: 'i' :: 'f' :: []))
      = 'o' :: 'u' :: 't' :: [] :=
  world_file_spec.2.2 ('o' :: 'u' :: 't' :: []) ('t' :: 'i' :: 'f' :: [])
    (by decide) (by decide) (by decide) (by decide) (by decide)

end RasterToRgb
